import Mathlib

/-!
Verification of the multichannel_audio library against its specification.

The development shallowly embeds the channel interleaving / de-interleaving
helpers, the blocking record protocol (input callback filling a pre-sized
buffer), the output callback, the entry validation of play / play_record,
and the time-alignment engine (signal assembly, chirp trigger detection,
loopback alignment) of the repository.

Modelling conventions:
- i32 samples are modelled as unbounded `Int` (interleaving, buffering and
  alignment only move samples around, no arithmetic that can overflow);
- f64 arithmetic inside trigger detection is modelled with exact rationals
  (`ℚ`); rounding at the comparison threshold is ulp-level and irrelevant
  to the structural claims proved here; the Rust literal 0.2 is modelled
  as 1/5;
- operations that abort in Rust (index out of bounds, drain past the end of
  a vector) are modelled by returning `none`; functions that cannot abort
  return plain values;
- in-place mutation is modelled by returning the final state alongside the
  result.
-/

namespace MultichannelAudio

/-! ## Interleaving and de-interleaving (AudioInstance::flatten_output_data,
AudioInstance::convert_to_channel_data)

`flatten_output_data` walks sample indices `0 .. output_data[0].len()` and,
for each index, pushes that sample of every channel.  Rust aborts when a
channel is shorter than channel 0 (or when there is no channel at all); the
model totalises those reads with `getD` and theorems carry the equal-length
and nonemptiness hypotheses under which the model and the code agree. -/

def flattenOutputData (outputData : List (List Int)) : List Int :=
  (List.range outputData.headI.length).flatMap
    (fun sampleIndex => outputData.map (fun channel => channel.getD sampleIndex 0))

/-- The chunks traversed by `input_buffer.chunks_exact(C)`: maximal list of
consecutive length-`C` blocks, the trailing partial block dropped. -/
def chunksExact (C : Nat) (buf : List Int) : List (List Int) :=
  if h : 0 < C ∧ C ≤ buf.length then
    buf.take C :: chunksExact C (buf.drop C)
  else
    []
termination_by buf.length
decreasing_by
  simp only [List.length_drop]
  omega

/-- Model of `AudioInstance::convert_to_channel_data`: channel `j` collects entry `j`
of every complete `C`-sized chunk of the interleaved buffer. -/
def convertToChannelData (C : Nat) (buf : List Int) : List (List Int) :=
  (List.range C).map (fun j => (chunksExact C buf).map (fun chunk => chunk.getD j 0))

/-! ### Helper lemmas about the chunk structure -/

theorem chunksExact_nil (C : Nat) (buf : List Int) (h : buf.length < C) :
    chunksExact C buf = [] := by
  rw [chunksExact, dif_neg (by omega)]

theorem chunksExact_flatten (C : Nat) (hC : 0 < C) :
    ∀ blocks : List (List Int), (∀ b ∈ blocks, b.length = C) →
      chunksExact C blocks.flatten = blocks := by
  intro blocks
  induction blocks with
  | nil =>
      intro _
      rw [List.flatten_nil, chunksExact, dif_neg (by simp; omega)]
  | cons b rest ih =>
      intro hlen
      have hb : b.length = C := hlen b (List.mem_cons_self b rest)
      have hrest : ∀ x ∈ rest, x.length = C := fun x hx => hlen x (List.mem_cons_of_mem b hx)
      rw [List.flatten_cons, chunksExact]
      have hle : C ≤ (b ++ rest.flatten).length := by
        simp [List.length_append, hb]
      rw [dif_pos ⟨hC, hle⟩]
      have htake : (b ++ rest.flatten).take C = b := by
        rw [← hb, List.take_left]
      have hdrop : (b ++ rest.flatten).drop C = rest.flatten := by
        rw [← hb, List.drop_left]
      rw [htake, hdrop, ih hrest]

theorem chunksExact_length (C : Nat) (buf : List Int) :
    (chunksExact C buf).length = buf.length / C := by
  by_cases hC : 0 < C
  · induction buf using chunksExact.induct C with
    | case1 buf h ih =>
        rw [chunksExact, dif_pos h, List.length_cons, ih]
        rw [Nat.div_eq buf.length C, if_pos ⟨h.1, h.2⟩]
        simp [List.length_drop]
    | case2 buf h =>
        rw [chunksExact, dif_neg h]
        rcases Decidable.em (C ≤ buf.length) with hle | hlt
        · exact absurd ⟨hC, hle⟩ h
        · rw [Nat.div_eq buf.length C, if_neg (by tauto)]
          rfl
  · have : C = 0 := by omega
    subst this
    rw [chunksExact]
    simp

theorem getD_map_of_lt {α β : Type} (l : List α) (f : α → β) (i : Nat) (d : β) (d' : α)
    (h : i < l.length) : (l.map f).getD i d = f (l.getD i d') := by
  rw [List.getD_eq_getElem (l.map f) d (by simpa using h),
      List.getD_eq_getElem l d' h, List.getElem_map]

theorem map_getD_range {α : Type} (l : List α) (d : α) :
    (List.range l.length).map (fun i => l.getD i d) = l := by
  induction l with
  | nil => simp
  | cons a t ih =>
      rw [List.length_cons, List.range_succ_eq_map, List.map_cons, List.map_map]
      simp only [Function.comp_def, List.getD_cons_zero, List.getD_cons_succ]
      rw [ih]

theorem getD_mem_of_lt {α : Type} (l : List α) (j : Nat) (d : α) (h : j < l.length) :
    l.getD j d ∈ l := by
  rw [List.getD_eq_getElem l d h]
  exact List.getElem_mem h

/-- Interleaving written as the flattening of one length-`C` block per
sample index. -/
theorem flattenOutputData_eq_flatten (X : List (List Int)) (n : Nat)
    (hhead : X.headI.length = n) :
    flattenOutputData X =
      ((List.range n).map (fun i => X.map (fun ch => ch.getD i 0))).flatten := by
  rw [flattenOutputData, hhead, List.flatMap_def]

/-- Claim C2 — de-interleaving inverts interleaving: for a Channel Sample
Set `X` whose channel count matches the configured count `C > 0` and whose
channels all have length `n`, `convert_to_channel_data` applied to
`flatten_output_data X` returns `X` unchanged. -/
theorem convert_flatten_roundTrip (X : List (List Int)) (C n : Nat)
    (hX : X.length = C) (hC : 0 < C) (hlen : ∀ ch ∈ X, ch.length = n) :
    convertToChannelData C (flattenOutputData X) = X := by
  have hne : X ≠ [] := by
    intro h
    rw [h] at hX
    simp at hX
    omega
  have hhead : X.headI.length = n := by
    cases X with
    | nil => exact absurd rfl hne
    | cons a t => exact hlen a (List.mem_cons_self a t)
  rw [flattenOutputData_eq_flatten X n hhead, convertToChannelData,
      chunksExact_flatten C hC _ (by
        intro b hb
        rw [List.mem_map] at hb
        obtain ⟨i, _, rfl⟩ := hb
        simp [hX])]
  have hstep : ∀ j ∈ List.range C,
      ((List.range n).map (fun i => X.map (fun ch => ch.getD i 0))).map
        (fun chunk => chunk.getD j 0) = X.getD j [] := by
    intro j hj
    rw [List.mem_range] at hj
    rw [List.map_map]
    have hjX : j < X.length := by omega
    have : ∀ i ∈ List.range n,
        ((fun chunk => chunk.getD j 0) ∘ fun i => X.map fun ch => ch.getD i 0) i =
          (X.getD j []).getD i 0 := by
      intro i _
      exact getD_map_of_lt X (fun ch => ch.getD i 0) j 0 [] hjX
    rw [List.map_congr_left this]
    have hlenj : (X.getD j []).length = n := hlen _ (getD_mem_of_lt X j [] hjX)
    rw [← hlenj]
    exact map_getD_range (X.getD j []) 0
  rw [List.map_congr_left hstep, ← hX]
  exact map_getD_range X []

theorem getD_take_of_lt (buf : List Int) (C j : Nat) (d : Int) (h : j < C) :
    (buf.take C).getD j d = buf.getD j d := by
  rw [List.getD_eq_getElem?_getD, List.getD_eq_getElem?_getD, List.getElem?_take]
  simp [h]

theorem getD_drop (buf : List Int) (C i : Nat) (d : Int) :
    (buf.drop C).getD i d = buf.getD (C + i) d := by
  rw [List.getD_eq_getElem?_getD, List.getD_eq_getElem?_getD, List.getElem?_drop]

/-- Entry `j` of every complete chunk, indexed back into the flat buffer. -/
theorem chunksExact_map_getD (C : Nat) (buf : List Int) (j : Nat) (hj : j < C) :
    (chunksExact C buf).map (fun chunk => chunk.getD j 0) =
      (List.range (buf.length / C)).map (fun i => buf.getD (i * C + j) 0) := by
  induction buf using chunksExact.induct C with
  | case1 buf h ih =>
      rw [chunksExact, dif_pos h, List.map_cons, ih]
      rw [Nat.div_eq buf.length C, if_pos ⟨h.1, h.2⟩, List.range_succ_eq_map,
          List.map_cons, List.map_map]
      congr 1
      · rw [getD_take_of_lt buf C j 0 hj]
        norm_num
      · simp only [List.length_drop]
        apply List.map_congr_left
        intro i _
        simp only [Function.comp_apply]
        rw [getD_drop]
        congr 1
        rw [Nat.succ_mul]
        omega
  | case2 buf h =>
      rw [chunksExact, dif_neg h]
      have : buf.length < C := by omega
      rw [Nat.div_eq buf.length C, if_neg (by omega)]
      simp

/-- Claim C10 — de-interleaving an interleaved buffer whose length is not a
multiple of the channel count `C` silently drops the trailing partial
frame: it returns `C` channels, each of length `bufLength / C`, and channel
`j` holds exactly the samples at flat positions `i * C + j` of the complete
frames. -/
theorem convert_partial_frames (buf : List Int) (C : Nat)
    (hC : 0 < C) (hrem : buf.length % C ≠ 0) :
    (convertToChannelData C buf).length = C ∧
      (∀ ch ∈ convertToChannelData C buf, ch.length = buf.length / C) ∧
      ∀ j, j < C → (convertToChannelData C buf).getD j [] =
        (List.range (buf.length / C)).map (fun i => buf.getD (i * C + j) 0) := by
  refine ⟨by simp [convertToChannelData], ?_, ?_⟩
  · intro ch hch
    rw [convertToChannelData, List.mem_map] at hch
    obtain ⟨j, _, rfl⟩ := hch
    rw [List.length_map, chunksExact_length]
  · intro j hj
    rw [convertToChannelData,
        List.getD_eq_getElem _ _ (by simpa using hj), List.getElem_map,
        List.getElem_range, chunksExact_map_getD C buf j hj]

/-- Witness for `convert_partial_frames`: a five-sample stereo buffer keeps
two frames per channel and drops the fifth sample. -/
theorem convert_partial_frames_witness :
    0 < 2 ∧ ([1, 2, 3, 4, 5] : List Int).length % 2 ≠ 0 ∧
      ((convertToChannelData 2 [1, 2, 3, 4, 5]).length = 2 ∧
        (∀ ch ∈ convertToChannelData 2 [1, 2, 3, 4, 5],
          ch.length = ([1, 2, 3, 4, 5] : List Int).length / 2) ∧
        ∀ j, j < 2 → (convertToChannelData 2 [1, 2, 3, 4, 5]).getD j [] =
          (List.range (([1, 2, 3, 4, 5] : List Int).length / 2)).map
            (fun i => ([1, 2, 3, 4, 5] : List Int).getD (i * 2 + j) 0)) :=
  ⟨by decide, by decide, convert_partial_frames [1, 2, 3, 4, 5] 2 (by decide) (by decide)⟩

/-- Witness for `convert_flatten_roundTrip` at a concrete stereo signal. -/
theorem convert_flatten_roundTrip_witness :
    ([[1, 2], [3, 4]] : List (List Int)).length = 2 ∧ 0 < 2 ∧
      (∀ ch ∈ ([[1, 2], [3, 4]] : List (List Int)), ch.length = 2) ∧
      convertToChannelData 2 (flattenOutputData [[1, 2], [3, 4]]) = [[1, 2], [3, 4]] :=
  ⟨by decide, by decide, by decide,
    convert_flatten_roundTrip [[1, 2], [3, 4]] 2 2 (by decide) (by decide) (by decide)⟩

/-! ## Recording (create_input_stream callback, AudioInstance::record)

The input callback shares a buffer with the caller.  `record(duration)`
pre-sizes the buffer to `(sampleRate * duration) as usize *
inputChannelCount` (the `f64 → usize` cast truncates, i.e. floors for the
positive durations of interest; `Vec::with_capacity` is taken to allocate
exactly the requested capacity), raises the record flag and parks until the
callback lowers it.  The callback appends whole hardware chunks while they
fit strictly below capacity, and on the first chunk that would reach or
cross capacity it appends just the remaining room and lowers the flag. -/

structure InputCallbackState where
  recordFlag : Bool
  buffer : List Int
  capacity : Nat
deriving DecidableEq

/-- One invocation of the input callback with one hardware chunk `data`. -/
def inputCallback (st : InputCallbackState) (data : List Int) : InputCallbackState :=
  if !st.recordFlag then st
  else if st.buffer.length + data.length < st.capacity then
    { st with buffer := st.buffer ++ data }
  else if 0 < st.capacity then
    { st with
      buffer := st.buffer ++ data.take (st.capacity - st.buffer.length),
      recordFlag := false }
  else st

def runInputCallbacks (st : InputCallbackState) (chunks : List (List Int)) :
    InputCallbackState :=
  chunks.foldl inputCallback st

/-- The capacity `record` requests: `(sampleRate as f64 * duration) as usize
* numberOfInputChannels`. -/
def recordCapacity (sampleRate C : Nat) (duration : ℚ) : Nat :=
  (⌊(sampleRate : ℚ) * duration⌋).toNat * C

/-- Model of `AudioInstance::record`, as a function of the hardware chunks the Audio
HAL delivers while the flag is up.  `none` models the call never returning
(the callback never lowers the flag, so the caller waits forever). -/
def record (sampleRate C : Nat) (duration : ℚ) (chunks : List (List Int)) :
    Option (List (List Int)) :=
  let st := runInputCallbacks ⟨true, [], recordCapacity sampleRate C duration⟩ chunks
  if st.recordFlag then none
  else some (convertToChannelData C st.buffer)

theorem runInputCallbacks_cons (st : InputCallbackState) (c : List Int)
    (rest : List (List Int)) :
    runInputCallbacks st (c :: rest) = runInputCallbacks (inputCallback st c) rest := rfl

theorem runInputCallbacks_of_not_flag (st : InputCallbackState) (chunks : List (List Int))
    (h : st.recordFlag = false) : runInputCallbacks st chunks = st := by
  induction chunks with
  | nil => rfl
  | cons c rest ih =>
      rw [runInputCallbacks_cons]
      have hstep : inputCallback st c = st := by
        rw [inputCallback, h]
        simp
      rw [hstep]
      exact ih

/-- Once enough samples have arrived, the callback has lowered the flag and
the buffer holds exactly `capacity` samples. -/
theorem runInputCallbacks_fills (chunks : List (List Int)) :
    ∀ st : InputCallbackState, st.recordFlag = true →
      0 < st.capacity → st.buffer.length < st.capacity →
      st.capacity ≤ st.buffer.length + (chunks.map List.length).sum →
      (runInputCallbacks st chunks).recordFlag = false ∧
        (runInputCallbacks st chunks).buffer.length = st.capacity := by
  induction chunks with
  | nil =>
      intro st _ _ hlt hge
      simp at hge
      omega
  | cons c rest ih =>
      intro st hflag hcap hlt hge
      rw [runInputCallbacks_cons]
      by_cases hfit : st.buffer.length + c.length < st.capacity
      · have hstep : inputCallback st c = { st with buffer := st.buffer ++ c } := by
          rw [inputCallback, hflag]
          simp [hfit]
        rw [hstep]
        apply ih
        · exact hflag
        · exact hcap
        · simpa using hfit
        · simp only [List.length_append]
          simp only [List.map_cons, List.sum_cons] at hge
          omega
      · have hstep : inputCallback st c =
            { st with
              buffer := st.buffer ++ c.take (st.capacity - st.buffer.length),
              recordFlag := false } := by
          rw [inputCallback, hflag]
          simp [hfit, hcap]
        rw [hstep, runInputCallbacks_of_not_flag _ rest rfl]
        refine ⟨rfl, ?_⟩
        simp only [List.length_append, List.length_take]
        omega

theorem inputCallback_of_capacity_zero (st : InputCallbackState) (data : List Int)
    (h : st.capacity = 0) : inputCallback st data = st := by
  rw [inputCallback]
  cases hf : st.recordFlag <;> simp [h]

theorem record_of_capacity_zero (sampleRate C : Nat) (duration : ℚ)
    (chunks : List (List Int)) (h : recordCapacity sampleRate C duration = 0) :
    record sampleRate C duration chunks = none := by
  have hrun : ∀ cs : List (List Int), ∀ st : InputCallbackState, st.capacity = 0 →
      runInputCallbacks st cs = st := by
    intro cs
    induction cs with
    | nil => intro st _; rfl
    | cons c rest ih =>
        intro st hst
        rw [runInputCallbacks_cons, inputCallback_of_capacity_zero st c hst]
        exact ih st hst
  simp only [record]
  rw [hrun chunks ⟨true, [], recordCapacity sampleRate C duration⟩ h]
  rfl

/-- Counterexample to claim C1 as stated: for a positive duration shorter
than one sample period the requested capacity is zero, the callback never
lowers the record flag, and `record` never returns — no matter how much
data the hardware delivers. -/
theorem record_subsample_duration_hangs :
    (0 : ℚ) < 1 / 100000 ∧
      record 44100 2 (1 / 100000) [[1, 2, 3, 4], [5, 6, 7, 8]] = none := by
  constructor
  · norm_num
  · apply record_of_capacity_zero
    rw [recordCapacity]
    norm_num

/-- Claim C1 (amended) — for every duration of at least one sample period,
once the callback has delivered at least `capacity` samples, `record`
returns exactly `C` channels, each holding `floor(duration × sampleRate)`
samples. -/
theorem record_returns_floor_channels (sampleRate C : Nat) (duration : ℚ)
    (chunks : List (List Int)) (hC : 0 < C) (hd : 0 < duration)
    (hN : 1 ≤ ⌊(sampleRate : ℚ) * duration⌋)
    (hdata : recordCapacity sampleRate C duration ≤ (chunks.map List.length).sum) :
    ∃ out, record sampleRate C duration chunks = some out ∧
      out.length = C ∧
      ∀ ch ∈ out, ch.length = (⌊(sampleRate : ℚ) * duration⌋).toNat := by
  have hcap : 0 < recordCapacity sampleRate C duration := by
    rw [recordCapacity]
    have : 0 < (⌊(sampleRate : ℚ) * duration⌋).toNat := by omega
    exact Nat.mul_pos this hC
  obtain ⟨hflag, hlen⟩ := runInputCallbacks_fills chunks
    ⟨true, [], recordCapacity sampleRate C duration⟩ rfl hcap (by simpa using hcap)
    (by simpa using hdata)
  refine ⟨convertToChannelData C
    (runInputCallbacks ⟨true, [], recordCapacity sampleRate C duration⟩ chunks).buffer,
    ?_, ?_, ?_⟩
  · rw [record]
    simp only [hflag]
    rfl
  · simp [convertToChannelData]
  · intro ch hch
    rw [convertToChannelData, List.mem_map] at hch
    obtain ⟨j, _, rfl⟩ := hch
    rw [List.length_map, chunksExact_length, hlen, recordCapacity,
        Nat.mul_div_cancel _ hC]

/-- Witness for `record_returns_floor_channels`: sampleRate 10, duration
1/2 s, stereo; capacity 10; twelve delivered samples suffice. -/
theorem record_returns_floor_channels_witness :
    0 < 2 ∧ (0 : ℚ) < 1 / 2 ∧ 1 ≤ ⌊((10 : Nat) : ℚ) * (1 / 2)⌋ ∧
      recordCapacity 10 2 (1 / 2) ≤
        (([[1, 2, 3, 4, 5, 6], [7, 8, 9, 10, 11, 12]].map List.length).sum) ∧
      ∃ out, record 10 2 (1 / 2) [[1, 2, 3, 4, 5, 6], [7, 8, 9, 10, 11, 12]] = some out ∧
        out.length = 2 ∧
        ∀ ch ∈ out, ch.length = (⌊((10 : Nat) : ℚ) * (1 / 2)⌋).toNat :=
  ⟨by decide, by norm_num, by norm_num,
    by rw [recordCapacity]; norm_num; omega,
    record_returns_floor_channels 10 2 (1 / 2) [[1, 2, 3, 4, 5, 6], [7, 8, 9, 10, 11, 12]]
      (by decide) (by norm_num) (by norm_num) (by rw [recordCapacity]; norm_num; omega)⟩


/-! ## Playback entry validation (AudioInstance::play, play_record)

Both functions compare `number_of_output_channels` (a `u16`) against
`output_data.len() as u16`; the cast truncates the channel count modulo
2^16.  On mismatch, `play` returns a fixed message while `play_record`
formats the expected and actual counts into its message; both return
before the shared output buffer is touched.  On success both flatten the
channels into the output buffer.  The models return the error (or unit)
together with the resulting output buffer. -/

def playMismatchMsg : String := "Number of channels does not match"

def playRecordMismatchMsg (expected actual : Nat) : String :=
  "Number of channels does not match\n\tExpected: " ++ toString expected ++
    ", Actual: " ++ toString actual

/-- Model of `AudioInstance::play` up to the point where the caller starts waiting:
validation and the write of the interleaved signal to the output buffer. -/
def playStep (numOutputChannels : Nat) (outputBuffer : List Int)
    (outputData : List (List Int)) : Except String Unit × List Int :=
  if numOutputChannels ≠ outputData.length % 65536 then
    (Except.error playMismatchMsg, outputBuffer)
  else
    (Except.ok (), flattenOutputData outputData)

/-- Model of `AudioInstance::play_record` up to the same point. -/
def playRecordStep (numOutputChannels : Nat) (outputBuffer : List Int)
    (outputData : List (List Int)) : Except String Unit × List Int :=
  if numOutputChannels ≠ outputData.length % 65536 then
    (Except.error (playRecordMismatchMsg numOutputChannels outputData.length), outputBuffer)
  else
    (Except.ok (), flattenOutputData outputData)

/-- Counterexample to claim C7 as stated: `play`'s channel-count-mismatch
error is one fixed message; two calls whose expected counts differ (2
versus 5 output channels, one channel supplied) produce identical errors,
so the error cannot carry the expected (nor the actual) count. -/
theorem play_mismatch_error_carries_no_counts :
    (playStep 2 [] [[7]]).1 = (playStep 5 [] [[7]]).1 ∧ (2 : Nat) ≠ 5 := by
  constructor
  · rfl
  · decide

/-- Claim C7 (amended) — whenever the supplied channel count differs from
the configured output channel count modulo 2^16 (in particular for any
differing count below 65536), `play` and `play_record` both fail and leave
the output buffer untouched; `play_record`'s error message carries both the
expected and the actual count, `play`'s is a fixed count-free message. -/
theorem play_playRecord_mismatch (numOutputChannels : Nat) (outputBuffer : List Int)
    (outputData : List (List Int))
    (hmm : numOutputChannels ≠ outputData.length % 65536) :
    playStep numOutputChannels outputBuffer outputData =
      (Except.error playMismatchMsg, outputBuffer) ∧
    playRecordStep numOutputChannels outputBuffer outputData =
      (Except.error (playRecordMismatchMsg numOutputChannels outputData.length),
        outputBuffer) := by
  rw [playStep, playRecordStep, if_pos hmm, if_pos hmm]
  exact ⟨rfl, rfl⟩

/-- Witness for `play_playRecord_mismatch`: two channels supplied to a
four-channel device. -/
theorem play_playRecord_mismatch_witness :
    (4 : Nat) ≠ ([[1], [2]] : List (List Int)).length % 65536 ∧
      (playStep 4 [9, 9] [[1], [2]] = (Except.error playMismatchMsg, [9, 9]) ∧
        playRecordStep 4 [9, 9] [[1], [2]] =
          (Except.error (playRecordMismatchMsg 4 2), [9, 9])) :=
  ⟨by decide, play_playRecord_mismatch 4 [9, 9] [[1], [2]] (by decide)⟩

/-! ## The output callback (create_output_stream)

State of the closure captured by the callback: the private copy of the
interleaved samples, its read cursor, the shared output buffer and the
play flag.  The callback writes every slot of the requested frame (so the
initial zero-fill performed when the flag is down is always overwritten by
the main loop); it refills the private copy from the shared buffer when
empty, copies `min(frameLen, available)` samples, advances the cursor, and
— only if the play flag was up when it ran out of data mid-frame — lowers
the flag, clears the private copy and empties the shared buffer. -/

structure OutputCallbackState where
  callbackBuffer : List Int
  iterator : Nat
  sharedBuffer : List Int
  playFlag : Bool
deriving DecidableEq

/-- One invocation of the output callback asked for `frameLen` samples;
returns the frame it writes to the hardware and the successor state. -/
def outputCallback (st : OutputCallbackState) (frameLen : Nat) :
    List Int × OutputCallbackState :=
  let refill := st.callbackBuffer.isEmpty
  let cb := if refill then st.sharedBuffer else st.callbackBuffer
  let it := if refill then 0 else st.iterator
  let numberOfSamples := min frameLen (cb.length - it)
  let chunkData := (cb.drop it).take numberOfSamples
  let data := (List.range frameLen).map
    (fun i => if i < chunkData.length then chunkData.getD i 0 else 0)
  if st.playFlag && decide (chunkData.length < frameLen) then
    (data, ⟨[], 0, [], false⟩)
  else
    (data, ⟨cb, it + numberOfSamples, st.sharedBuffer, st.playFlag⟩)

/-- Claim C8 is false in the code: with the play flag down, an empty
private copy, and a pending signal in the shared buffer, the callback still
copies buffered samples into the frame (it zero-fills but then falls
through into the copy loop) and advances its cursor — here a 2-sample frame
comes out as `[5, 5]`, not silence, and the cursor moves 0 → 2. -/
theorem outputCallback_flagDown_consumes_buffer :
    outputCallback ⟨[], 0, [5, 5, 5], false⟩ 2 =
      ([5, 5], ⟨[5, 5, 5], 2, [5, 5, 5], false⟩) := by
  decide

/-! ## Chirp trigger detection (AudioInstance::find_start)

`find_start` copies the loopback channel to f64, zeroes the first 24000
entries, divides everything by the maximum, collects the indices whose
normalized value is at least 0.2, and errors when there is no such index or
the last one lies beyond 96000; otherwise it returns the last index plus
15.  The f64 pipeline is modelled with exact rationals; the fold seeded
with NaN under `f64::max` returns the true maximum on nonempty input,
modelled by `maximum.unbot' 0` (for an empty channel both the code and the
model end in the no-trigger error).  Division by a zero maximum in f64
yields NaN or -inf on the (necessarily nonpositive) entries, none of which
pass the 0.2 test — matching rational division by zero, which yields 0. -/

def zeroNoise (v : List ℚ) : List ℚ :=
  List.replicate (min 24000 v.length) 0 ++ v.drop 24000

def channelMax (v : List ℚ) : ℚ :=
  v.maximum.unbot' 0

def triggerIndices (normalized : List ℚ) : List Nat :=
  normalized.enum.filterMap (fun p => if (1 / 5 : ℚ) ≤ p.2 then some p.1 else none)

def corruptedSignalMsg : String :=
  "Timing trigger is later than 2 seconds. Signal is corrupted likely due to timing channel assign error."

def findStart (loopback : List Int) : Except String Nat :=
  let loopbackF : List ℚ := loopback.map (fun x : Int => (x : ℚ))
  let zeroed := zeroNoise loopbackF
  let m := channelMax zeroed
  let normalized := zeroed.map (fun v => v / m)
  let trigger := triggerIndices normalized
  if trigger = [] ∨ 96000 < trigger.getLast?.getD 0 then
    Except.error corruptedSignalMsg
  else
    Except.ok (trigger.getLast?.getD 0 + 15)

/-- The indices the spec calls qualifying: positions of the
first-24000-zeroed channel whose value, normalized by the channel maximum,
reaches the 0.2 threshold.  Written from the spec's words, to be compared
with the implementation's `triggerIndices` pipeline. -/
def specQualifyingIndices (loopback : List Int) : List Nat :=
  (List.range loopback.length).filter
    (fun i => (1 / 5 : ℚ) ≤ (zeroNoise (loopback.map (fun x : Int => (x : ℚ)))).getD i 0 /
      channelMax (zeroNoise (loopback.map (fun x : Int => (x : ℚ)))))

theorem zeroNoise_length (v : List ℚ) : (zeroNoise v).length = v.length := by
  rw [zeroNoise, List.length_append, List.length_replicate, List.length_drop]
  omega

theorem filterMap_enumFrom_threshold (l : List ℚ) :
    ∀ k, (List.enumFrom k l).filterMap
        (fun p => if (1 / 5 : ℚ) ≤ p.2 then some p.1 else none) =
      ((List.range l.length).filter (fun i => (1 / 5 : ℚ) ≤ l.getD i 0)).map (k + ·) := by
  induction l with
  | nil => intro k; rfl
  | cons a t ih =>
      intro k
      rw [List.enumFrom_cons, List.filterMap_cons, List.length_cons,
          List.range_succ_eq_map, List.filter_cons, ih (k + 1)]
      have hshift : (List.filter (fun i => decide ((1 / 5 : ℚ) ≤ (a :: t).getD i 0))
            ((List.range t.length).map Nat.succ)).map (k + ·) =
          (List.filter (fun i => decide ((1 / 5 : ℚ) ≤ t.getD i 0))
            (List.range t.length)).map ((k + 1) + ·) := by
        rw [List.filter_map, List.map_map]
        have hc : ∀ i ∈ List.range t.length,
            ((fun i => decide ((1 / 5 : ℚ) ≤ (a :: t).getD i 0)) ∘ Nat.succ) i =
              decide ((1 / 5 : ℚ) ≤ t.getD i 0) := by
          intro i _
          simp [Function.comp_apply, List.getD_cons_succ]
        rw [List.filter_congr hc]
        apply List.map_congr_left
        intro i _
        simp only [Function.comp_apply]
        omega
      by_cases ha : (1 / 5 : ℚ) ≤ a
      · rw [if_pos ha, if_pos (by simpa using ha), List.map_cons, hshift]
        congr 1
      · rw [if_neg ha, if_neg (by simpa using ha), hshift]

theorem triggerIndices_eq_filter (l : List ℚ) :
    triggerIndices l = (List.range l.length).filter (fun i => (1 / 5 : ℚ) ≤ l.getD i 0) := by
  have h := filterMap_enumFrom_threshold l 0
  rw [triggerIndices]
  have henum : l.enum = List.enumFrom 0 l := rfl
  rw [henum, h]
  simp

theorem getD_map_div (z : List ℚ) (m : ℚ) (i : Nat) :
    (z.map (fun v => v / m)).getD i 0 = z.getD i 0 / m := by
  rcases Nat.lt_or_ge i z.length with h | h
  · exact getD_map_of_lt z _ i 0 0 h
  · rw [List.getD_eq_default _ _ (by simpa using h), List.getD_eq_default _ _ h, zero_div]

/-- Lemma: `find_start` decides success and failure exactly through the spec's
qualifying-index list. -/
theorem findStart_eq_spec (loopback : List Int) :
    findStart loopback =
      if specQualifyingIndices loopback = [] ∨
          96000 < (specQualifyingIndices loopback).getLast?.getD 0 then
        Except.error corruptedSignalMsg
      else
        Except.ok ((specQualifyingIndices loopback).getLast?.getD 0 + 15) := by
  have htr : triggerIndices ((zeroNoise (loopback.map (fun x : Int => (x : ℚ)))).map
      (fun v => v / channelMax (zeroNoise (loopback.map (fun x : Int => (x : ℚ)))))) =
      specQualifyingIndices loopback := by
    rw [triggerIndices_eq_filter, specQualifyingIndices, List.length_map,
        zeroNoise_length, List.length_map]
    apply List.filter_congr
    intro i _
    rw [getD_map_div]
  rw [findStart]
  rw [htr]

/-- Claim C4 — `find_start` returns the corrupted-signal error exactly when
the spec-side qualifying-index list (indices of the first-24000-zeroed,
max-normalized channel meeting the 0.2 threshold) is empty or its last
element exceeds 96000; in every other case it returns Ok. -/
theorem findStart_error_iff (loopback : List Int) :
    findStart loopback = Except.error corruptedSignalMsg ↔
      specQualifyingIndices loopback = [] ∨
        96000 < (specQualifyingIndices loopback).getLast?.getD 0 := by
  rw [findStart_eq_spec]
  by_cases h : specQualifyingIndices loopback = [] ∨
      96000 < (specQualifyingIndices loopback).getLast?.getD 0
  · rw [if_pos h]
    exact ⟨fun _ => h, fun _ => rfl⟩
  · rw [if_neg h]
    constructor
    · intro he
      exact Except.noConfusion he
    · intro hh
      exact absurd hh h

/-! ### The single-spike loopback channels of claim C3 -/

theorem getD_replicate_zero_q (k i : Nat) : (List.replicate k (0 : ℚ)).getD i 0 = 0 := by
  rcases Nat.lt_or_ge i k with h | h
  · rw [List.getD_eq_getElem _ _ (by simpa using h)]
    exact List.getElem_replicate ..
  · exact List.getD_eq_default _ _ (by simpa using h)

theorem zeroNoise_of_leading_zeros (k : Nat) (hk : 24000 ≤ k) (rest : List ℚ) :
    zeroNoise (List.replicate k 0 ++ rest) = List.replicate k 0 ++ rest := by
  rw [zeroNoise]
  have hlen : (List.replicate k (0 : ℚ) ++ rest).length = k + rest.length := by simp
  rw [hlen]
  have hmin : min 24000 (k + rest.length) = 24000 := by omega
  rw [hmin]
  have hsplit := (List.replicate_add 24000 (k - 24000) (0 : ℚ)).symm
  have hk' : 24000 + (k - 24000) = k := by omega
  rw [hk'] at hsplit
  rw [← hsplit, List.append_assoc, List.drop_left' (by rw [List.length_replicate])]

theorem channelMax_eq_of (l : List ℚ) (M : ℚ) (hmem : M ∈ l) (hle : ∀ a ∈ l, a ≤ M) :
    channelMax l = M := by
  rw [channelMax, List.maximum_eq_coe_iff.2 ⟨hmem, hle⟩]
  rfl

theorem filter_range_eq_single (p : Nat → Bool) (n k : Nat) (hk : k < n)
    (hp : ∀ i, i < n → (p i = true ↔ i = k)) :
    (List.range n).filter p = [k] := by
  induction n with
  | zero => omega
  | succ n ih =>
      rw [List.range_succ, List.filter_append]
      by_cases hkn : k = n
      · have h1 : (List.range n).filter p = [] := by
          rw [List.filter_eq_nil_iff]
          intro a ha
          rw [List.mem_range] at ha
          intro hpa
          have := (hp a (by omega)).1 hpa
          omega
        have h2 : p n = true := (hp n (by omega)).2 (by omega)
        rw [h1]
        simp [List.filter_cons, h2, hkn]
      · have h2 : p n = false := by
          rcases hb : p n with _ | _
          · rfl
          · have := (hp n (by omega)).1 hb
            omega
        rw [ih (by omega) (fun i hi => hp i (by omega))]
        simp [List.filter_cons, h2]

theorem map_cast_spike (k r : Nat) (M : Int) :
    (List.replicate k (0 : Int) ++ M :: List.replicate r 0).map (fun x : Int => (x : ℚ)) =
      List.replicate k (0 : ℚ) ++ (M : ℚ) :: List.replicate r 0 := by
  simp [List.map_append, List.map_replicate]

theorem specQualifyingIndices_spike (k r : Nat) (M : Int)
    (hk : 24000 ≤ k) (hM : 0 < M) :
    specQualifyingIndices (List.replicate k 0 ++ M :: List.replicate r 0) = [k] := by
  have hMq : (0 : ℚ) < (M : ℚ) := by exact_mod_cast hM
  rw [specQualifyingIndices, map_cast_spike, zeroNoise_of_leading_zeros k hk]
  have hmax : channelMax (List.replicate k (0 : ℚ) ++ (M : ℚ) :: List.replicate r 0) =
      (M : ℚ) := by
    apply channelMax_eq_of
    · exact List.mem_append_right _ (List.mem_cons_self _ _)
    · intro a ha
      rcases List.mem_append.1 ha with h | h
      · rw [List.eq_of_mem_replicate h]
        exact le_of_lt hMq
      · rcases List.mem_cons.1 h with h' | h'
        · rw [h']
        · rw [List.eq_of_mem_replicate h']
          exact le_of_lt hMq
  rw [hmax]
  have hlen : (List.replicate k (0 : Int) ++ M :: List.replicate r 0).length = k + r + 1 := by
    rw [List.length_append, List.length_replicate, List.length_cons, List.length_replicate]
    omega
  rw [hlen]
  apply filter_range_eq_single _ _ k (by omega)
  intro i hi
  by_cases hik : i = k
  · subst hik
    have hval : (List.replicate i (0 : ℚ) ++ (M : ℚ) :: List.replicate r 0).getD i 0 =
        (M : ℚ) := by
      rw [List.getD_append_right _ _ _ _ (by rw [List.length_replicate]),
          List.length_replicate, Nat.sub_self, List.getD_cons_zero]
    rw [hval, div_self (ne_of_gt hMq)]
    norm_num
  · have hval : (List.replicate k (0 : ℚ) ++ (M : ℚ) :: List.replicate r 0).getD i 0 = 0 := by
      rcases Nat.lt_or_ge i k with hlt | hge
      · rw [List.getD_append _ _ _ _ (by rw [List.length_replicate]; omega)]
        exact getD_replicate_zero_q k i
      · rw [List.getD_append_right _ _ _ _ (by rw [List.length_replicate]; omega),
            List.length_replicate]
        have hpos : i - k = (i - k - 1) + 1 := by omega
        rw [hpos, List.getD_cons_succ]
        exact getD_replicate_zero_q r (i - k - 1)
    rw [hval, zero_div]
    simp only [decide_eq_true_eq]
    constructor
    · intro habs
      norm_num at habs
    · intro habs
      exact absurd habs hik

/-- Lemma: `find_start` at a single positive spike at index `k` of an otherwise
silent channel: the trigger list is exactly `[k]`, so for
`24000 ≤ k ≤ 96000` the result is `Ok (k + 15)`. -/
theorem findStart_spike (k r : Nat) (M : Int)
    (hk : 24000 ≤ k) (hk2 : k ≤ 96000) (hM : 0 < M) :
    findStart (List.replicate k 0 ++ M :: List.replicate r 0) = Except.ok (k + 15) := by
  rw [findStart_eq_spec, specQualifyingIndices_spike k r M hk hM]
  rw [if_neg (by simp; omega)]
  simp

/-- Claim C3 — a loopback channel that is all zero except the maximum
representable i32 sample at index `k`, with `24000 < k ≤ 96000`: the first
24000 samples are zeroed, normalization maps the spike to 1 and all else to
0, only index `k` meets the 0.2 threshold, and `find_start` returns
`Ok (k + 15)`. -/
theorem findStart_single_max_spike (k r : Nat) (hk : 24000 < k) (hk2 : k ≤ 96000) :
    findStart (List.replicate k 0 ++ (2147483647 : Int) :: List.replicate r 0) =
      Except.ok (k + 15) :=
  findStart_spike k r 2147483647 (by omega) hk2 (by norm_num)

/-- Witness for `findStart_single_max_spike` at `k = 24001` on a channel of
length 24002. -/
theorem findStart_single_max_spike_witness :
    24000 < 24001 ∧ 24001 ≤ 96000 ∧
      findStart (List.replicate 24001 0 ++ (2147483647 : Int) :: List.replicate 0 0) =
        Except.ok 24016 :=
  ⟨by decide, by decide,
    findStart_single_max_spike 24001 0 (by decide) (by decide)⟩

/-! ## Composite signal assembly (AudioInstance::aligned_play_record,
assemble_signal_with_loopback, methods::format_signal_for_multichannel)

`aligned_play_record` computes `duration = len(trainingSignal) as f64 /
sampleRate as f64` and passes `duration as usize` to the assembler — the
fractional part of the duration is truncated, modelled by Nat division.
The assembler builds, per output channel, a half-second zero gap, the chirp
(only on the timing channel, 1-based), and a training segment of
`duration * fs` samples (only on the training channel, 1-based): the
training signal is looped while shorter than the segment and truncated to
the segment length by the copy loop.  The chirp is decoded from a fixed
WAV asset not present in the sources, so it enters the model as an
arbitrary parameter; none of the claims depend on its contents.  Rust
aborts when a 1-based channel argument is 0 (usize underflow) or exceeds
the channel count (vector index); theorems carry in-range hypotheses. -/

def formatSignalForMultichannel (signal : List Int) (playbackIndex outputChannels : Nat) :
    List (List Int) :=
  (List.range outputChannels).map
    (fun j => if j = playbackIndex then signal else List.replicate signal.length 0)

/-- The training-signal loop: repeatedly extend a copy by the original
until it reaches `target` samples (`ceil(target / len)` copies in all); a
signal already long enough is left alone.  (For an empty signal and a
positive target the Rust loop diverges; that input is unreachable from
`aligned_play_record`, where `target ≤ len` always.) -/
def tiledSignal (signal : List Int) (target : Nat) : List Int :=
  if signal.length < target then
    (List.replicate ((target + signal.length - 1) / signal.length) signal).flatten
  else signal

/-- The per-index copy loop writing the (tiled) training signal into the
zero-initialised training channel: positions `0 .. target` receive the
tiled signal where it is defined, the rest stay zero. -/
def populateTraining (tiled : List Int) (target : Nat) : List Int :=
  tiled.take target ++ List.replicate (target - tiled.length) 0

def assembleSignalWithLoopback (chirp trainingSignal : List Int)
    (duration trainingChannel timingOutput fs C : Nat) : List (List Int) :=
  let timingIndex := timingOutput - 1
  let trainingIndex := trainingChannel - 1
  let target := duration * fs
  let trainingVec := (List.range C).map
    (fun j => if j = trainingIndex then
        populateTraining (tiledSignal trainingSignal target) target
      else List.replicate target 0)
  let chirpVec := formatSignalForMultichannel chirp timingIndex C
  let gap := List.replicate C (List.replicate (fs / 2) (0 : Int))
  List.zipWith (fun g p => g ++ p.1 ++ p.2) gap (chirpVec.zip trainingVec)

/-- The composite signal `aligned_play_record` hands to `play_record`. -/
def alignedOutputSignal (chirp trainingSignal : List Int)
    (trainingChannel timingOutput fs C : Nat) : List (List Int) :=
  assembleSignalWithLoopback chirp trainingSignal (trainingSignal.length / fs)
    trainingChannel timingOutput fs C

theorem populateTraining_length (tiled : List Int) (target : Nat) :
    (populateTraining tiled target).length = target := by
  rw [populateTraining, List.length_append, List.length_take, List.length_replicate]
  omega

/-- The assembled signal, channel by channel. -/
theorem assemble_eq_map (chirp trainingSignal : List Int)
    (duration trainingChannel timingOutput fs C : Nat) :
    assembleSignalWithLoopback chirp trainingSignal duration trainingChannel timingOutput fs C =
      (List.range C).map (fun j =>
        List.replicate (fs / 2) 0 ++
          (if j = timingOutput - 1 then chirp else List.replicate chirp.length 0) ++
          (if j = trainingChannel - 1 then
              populateTraining (tiledSignal trainingSignal (duration * fs)) (duration * fs)
            else List.replicate (duration * fs) 0)) := by
  rw [assembleSignalWithLoopback, formatSignalForMultichannel]
  have hgap : List.replicate C (List.replicate (fs / 2) (0 : Int)) =
      (List.range C).map (fun _ => List.replicate (fs / 2) (0 : Int)) := by
    rw [show (fun _ : Nat => List.replicate (fs / 2) (0 : Int)) =
      Function.const Nat (List.replicate (fs / 2) (0 : Int)) from rfl]
    rw [List.map_const, List.length_range]
  rw [hgap, List.zip_map', List.zipWith_map, List.zipWith_same]

theorem getD_map_range {β : Type} (f : Nat → β) (C j : Nat) (d : β) (hj : j < C) :
    ((List.range C).map f).getD j d = f j := by
  rw [List.getD_eq_getElem _ _ (by simpa using hj), List.getElem_map, List.getElem_range]

/-- Counterexample to claim C5 as stated: with sampleRate 4 and a 6-sample
training signal (1.5 s), the assembled channels are 4/2 + 1 + 4 = 7 samples
long — the training segment holds `floor(6/4) * 4 = 4` samples, not the
claimed `len(trainingSignal)/sampleRate` seconds (6 samples); channel 0
(the training channel) shows the truncation. -/
theorem alignedOutputSignal_duration_truncated :
    ((alignedOutputSignal [9] [1, 2, 3, 4, 5, 6] 1 2 4 2).getD 0 []).length = 7 ∧
      (7 : Nat) ≠ 4 / 2 + 1 + 6 := by
  decide

/-- Claim C5 (amended) — the composite signal built by
`aligned_play_record` has `C` channels of equal length, each the
concatenation of a half-second silence gap, a chirp-length segment, and a
training segment of `floor(len(trainingSignal) / sampleRate)` *whole*
seconds (the fractional second is truncated); the chirp appears only on the
timing channel, the training payload — truncated to the segment length —
only on the training channel, and every other channel is all zero. -/
theorem alignedOutputSignal_shape (chirp trainingSignal : List Int)
    (trainingChannel timingOutput fs C : Nat)
    (htr1 : 1 ≤ trainingChannel) (hti1 : 1 ≤ timingOutput)
    (htr : trainingChannel - 1 < C) (hti : timingOutput - 1 < C)
    (hne : trainingChannel ≠ timingOutput) :
    (alignedOutputSignal chirp trainingSignal trainingChannel timingOutput fs C).length = C ∧
      (∀ ch ∈ alignedOutputSignal chirp trainingSignal trainingChannel timingOutput fs C,
        ch.length = fs / 2 + chirp.length + (trainingSignal.length / fs) * fs) ∧
      (alignedOutputSignal chirp trainingSignal trainingChannel timingOutput fs C).getD
          (timingOutput - 1) [] =
        List.replicate (fs / 2) 0 ++ chirp ++
          List.replicate ((trainingSignal.length / fs) * fs) 0 ∧
      (alignedOutputSignal chirp trainingSignal trainingChannel timingOutput fs C).getD
          (trainingChannel - 1) [] =
        List.replicate (fs / 2) 0 ++ List.replicate chirp.length 0 ++
          trainingSignal.take ((trainingSignal.length / fs) * fs) ∧
      ∀ j, j < C → j ≠ timingOutput - 1 → j ≠ trainingChannel - 1 →
        (alignedOutputSignal chirp trainingSignal trainingChannel timingOutput fs C).getD
            j [] =
          List.replicate (fs / 2 + chirp.length + (trainingSignal.length / fs) * fs) 0 := by
  have ht : (trainingSignal.length / fs) * fs ≤ trainingSignal.length :=
    Nat.div_mul_le_self _ _
  have htrain : populateTraining
      (tiledSignal trainingSignal ((trainingSignal.length / fs) * fs))
      ((trainingSignal.length / fs) * fs) =
      trainingSignal.take ((trainingSignal.length / fs) * fs) := by
    rw [tiledSignal, if_neg (by omega), populateTraining, Nat.sub_eq_zero_of_le ht,
        List.replicate_zero, List.append_nil]
  have hne' : trainingChannel - 1 ≠ timingOutput - 1 := by omega
  rw [alignedOutputSignal, assemble_eq_map]
  refine ⟨by rw [List.length_map, List.length_range], ?_, ?_, ?_, ?_⟩
  · intro ch hch
    rw [List.mem_map] at hch
    obtain ⟨j, _, rfl⟩ := hch
    rw [List.length_append, List.length_append, List.length_replicate]
    have hchirp :
        (if j = timingOutput - 1 then chirp else List.replicate chirp.length 0).length =
          chirp.length := by
      by_cases h1 : j = timingOutput - 1 <;> simp [h1]
    have htrlen :
        (if j = trainingChannel - 1 then
            populateTraining (tiledSignal trainingSignal ((trainingSignal.length / fs) * fs))
              ((trainingSignal.length / fs) * fs)
          else List.replicate ((trainingSignal.length / fs) * fs) 0).length =
          (trainingSignal.length / fs) * fs := by
      by_cases h2 : j = trainingChannel - 1 <;> simp [h2, populateTraining_length]
    rw [hchirp, htrlen]
  · rw [getD_map_range _ _ _ _ hti, if_pos rfl, if_neg (Ne.symm hne')]
  · rw [getD_map_range _ _ _ _ htr, if_neg hne', if_pos rfl, htrain]
  · intro j hj hj1 hj2
    rw [getD_map_range _ _ _ _ hj, if_neg hj1, if_neg hj2]
    rw [List.append_assoc, ← List.replicate_add, ← List.replicate_add]
    congr 1
    omega

/-- Witness for `alignedOutputSignal_shape`: sampleRate 4, chirp `[9]`,
8-sample training signal on channel 1, timing on channel 2 of 3. -/
theorem alignedOutputSignal_shape_witness :
    1 ≤ 1 ∧ 1 ≤ 2 ∧ 1 - 1 < 3 ∧ 2 - 1 < 3 ∧ 1 ≠ 2 ∧
      ((alignedOutputSignal [9] [1, 2, 3, 4, 5, 6, 7, 8] 1 2 4 3).length = 3 ∧
        (∀ ch ∈ alignedOutputSignal [9] [1, 2, 3, 4, 5, 6, 7, 8] 1 2 4 3,
          ch.length = 4 / 2 + ([9] : List Int).length +
            (([1, 2, 3, 4, 5, 6, 7, 8] : List Int).length / 4) * 4) ∧
        (alignedOutputSignal [9] [1, 2, 3, 4, 5, 6, 7, 8] 1 2 4 3).getD (2 - 1) [] =
          List.replicate (4 / 2) 0 ++ [9] ++
            List.replicate ((([1, 2, 3, 4, 5, 6, 7, 8] : List Int).length / 4) * 4) 0 ∧
        (alignedOutputSignal [9] [1, 2, 3, 4, 5, 6, 7, 8] 1 2 4 3).getD (1 - 1) [] =
          List.replicate (4 / 2) 0 ++ List.replicate ([9] : List Int).length 0 ++
            ([1, 2, 3, 4, 5, 6, 7, 8] : List Int).take
              ((([1, 2, 3, 4, 5, 6, 7, 8] : List Int).length / 4) * 4) ∧
        ∀ j, j < 3 → j ≠ 2 - 1 → j ≠ 1 - 1 →
          (alignedOutputSignal [9] [1, 2, 3, 4, 5, 6, 7, 8] 1 2 4 3).getD j [] =
            List.replicate (4 / 2 + ([9] : List Int).length +
              (([1, 2, 3, 4, 5, 6, 7, 8] : List Int).length / 4) * 4) 0) :=
  ⟨by decide, by decide, by decide, by decide, by decide,
    alignedOutputSignal_shape [9] [1, 2, 3, 4, 5, 6, 7, 8] 1 2 4 3
      (by decide) (by decide) (by decide) (by decide) (by decide)⟩

/-! ## Loopback alignment (AudioInstance::align_with_loopback)

`align_with_loopback` converts the 1-based timing channel to 0-based with a
checked subtraction (0 yields an error, not an abort), runs `find_start` on
that channel (which takes the channel mutably but only reads it), and on
success drains the first `startSample` elements from every channel in
place, returning the drained array.  `none` models the two Rust aborts: a
timing-channel index at or beyond the channel count, and `drain(..s)` with
`s` beyond a channel's length.  The model returns the result together with
the final state of the array. -/

def timingChannelZeroMsg : String := "timing_channel must be greater than 0"

def alignWithLoopback (array : List (List Int)) (timingChannel : Nat) :
    Option (Except String (List (List Int)) × List (List Int)) :=
  if timingChannel = 0 then
    some (Except.error timingChannelZeroMsg, array)
  else if h : timingChannel - 1 < array.length then
    match findStart (array.getD (timingChannel - 1) []) with
    | Except.error e => some (Except.error e, array)
    | Except.ok startSample =>
        if ∀ ch ∈ array, startSample ≤ ch.length then
          some (Except.ok (array.map (fun ch => ch.drop startSample)),
            array.map (fun ch => ch.drop startSample))
        else none
  else none

theorem alignWithLoopback_of_error (array : List (List Int)) (timingChannel : Nat)
    (e : String) (h0 : timingChannel ≠ 0) (hidx : timingChannel - 1 < array.length)
    (hfs : findStart (array.getD (timingChannel - 1) []) = Except.error e) :
    alignWithLoopback array timingChannel = some (Except.error e, array) := by
  rw [alignWithLoopback, if_neg h0, dif_pos hidx, hfs]

theorem alignWithLoopback_of_ok (array : List (List Int)) (timingChannel s : Nat)
    (h0 : timingChannel ≠ 0) (hidx : timingChannel - 1 < array.length)
    (hfs : findStart (array.getD (timingChannel - 1) []) = Except.ok s) :
    alignWithLoopback array timingChannel =
      if ∀ ch ∈ array, s ≤ ch.length then
        some (Except.ok (array.map (fun ch => ch.drop s)),
          array.map (fun ch => ch.drop s))
      else none := by
  rw [alignWithLoopback, if_neg h0, dif_pos hidx, hfs]

/-- Claim C9 — `align_with_loopback` is atomic on error: whenever it
returns an error (timing channel 0, or `find_start` reporting corruption),
the recorded array is exactly as it was — no channel loses a sample. -/
theorem align_error_leaves_array (array : List (List Int)) (timingChannel : Nat)
    (e : String) (final : List (List Int))
    (h : alignWithLoopback array timingChannel = some (Except.error e, final)) :
    final = array := by
  by_cases h0 : timingChannel = 0
  · rw [alignWithLoopback, if_pos h0] at h
    simp only [Option.some.injEq, Prod.mk.injEq] at h
    exact h.2.symm
  · by_cases hidx : timingChannel - 1 < array.length
    · rcases hfs : findStart (array.getD (timingChannel - 1) []) with e' | s
      · rw [alignWithLoopback_of_error array timingChannel e' h0 hidx hfs] at h
        simp only [Option.some.injEq, Prod.mk.injEq] at h
        exact h.2.symm
      · rw [alignWithLoopback_of_ok array timingChannel s h0 hidx hfs] at h
        by_cases hall : ∀ ch ∈ array, s ≤ ch.length
        · rw [if_pos hall] at h
          simp at h
        · rw [if_neg hall] at h
          exact Option.noConfusion h
    · rw [alignWithLoopback, if_neg h0, dif_neg hidx] at h
      exact Option.noConfusion h

/-- Witness for `align_error_leaves_array`: timing channel 0 errors out of
the checked subtraction and the array comes back untouched. -/
theorem align_error_leaves_array_witness :
    alignWithLoopback [[1, 2]] 0 = some (Except.error timingChannelZeroMsg, [[1, 2]]) ∧
      ([[1, 2]] : List (List Int)) = [[1, 2]] :=
  ⟨by rfl, align_error_leaves_array [[1, 2]] 0 timingChannelZeroMsg [[1, 2]] (by rfl)⟩

/-- Counterexample to claim C6 as stated: a recording of one channel of
24001 samples (zeros, then a single positive spike at index 24000) makes
trigger detection succeed with start sample 24015, but 24015 exceeds the
channel length, so `drain(..24015)` aborts — `align_with_loopback` returns
nothing at all rather than suffixes. -/
theorem align_start_past_end_aborts :
    alignWithLoopback [List.replicate 24000 0 ++ (1 : Int) :: List.replicate 0 0] 1 =
      none := by
  have hfs : findStart (([List.replicate 24000 0 ++ (1 : Int) :: List.replicate 0 0] :
      List (List Int)).getD 0 []) = Except.ok 24015 := by
    rw [List.getD_cons_zero]
    exact findStart_spike 24000 0 1 (by omega) (by omega) (by omega)
  rw [alignWithLoopback_of_ok _ 1 24015 (by omega)
    (by simp only [List.length_singleton]; omega) hfs]
  rw [if_neg]
  intro hall
  have := hall _ (List.mem_cons_self _ _)
  rw [List.length_append, List.length_replicate, List.length_cons,
      List.length_replicate] at this
  omega

/-- Claim C6 (amended) — when trigger detection succeeds with start sample
`s` and `s` does not exceed the (equal) channel length `n`, alignment drops
exactly the first `s` samples from every channel: each returned channel is
the suffix of the corresponding input channel from `s` on, and all channels
end up with equal length `n - s`. -/
theorem align_drops_start_samples (array : List (List Int))
    (timingChannel n startSample : Nat)
    (hlen : ∀ ch ∈ array, ch.length = n)
    (ht : 1 ≤ timingChannel) (hidx : timingChannel - 1 < array.length)
    (hfs : findStart (array.getD (timingChannel - 1) []) = Except.ok startSample)
    (hs : startSample ≤ n) :
    alignWithLoopback array timingChannel =
      some (Except.ok (array.map (fun ch => ch.drop startSample)),
        array.map (fun ch => ch.drop startSample)) ∧
      ∀ ch ∈ array.map (fun ch => ch.drop startSample), ch.length = n - startSample := by
  constructor
  · rw [alignWithLoopback_of_ok array timingChannel startSample (by omega) hidx hfs,
        if_pos]
    intro ch hch
    rw [hlen ch hch]
    exact hs
  · intro ch hch
    rw [List.mem_map] at hch
    obtain ⟨c, hc, rfl⟩ := hch
    rw [List.length_drop, hlen c hc]

/-- Witness for `align_drops_start_samples`: two equal-length channels with
a spike at index 24000 of the timing channel (channel 1); alignment drops
24015 samples from both. -/
theorem align_drops_start_samples_witness :
    (∀ ch ∈ ([List.replicate 24000 0 ++ (1 : Int) :: List.replicate 100 0,
        List.replicate 24101 (7 : Int)] : List (List Int)), ch.length = 24101) ∧
      1 ≤ 1 ∧ (1 : Nat) - 1 < 2 ∧
      findStart (([List.replicate 24000 0 ++ (1 : Int) :: List.replicate 100 0,
        List.replicate 24101 (7 : Int)] : List (List Int)).getD 0 []) =
          Except.ok 24015 ∧
      24015 ≤ 24101 ∧
      (alignWithLoopback [List.replicate 24000 0 ++ (1 : Int) :: List.replicate 100 0,
          List.replicate 24101 (7 : Int)] 1 =
        some (Except.ok (([List.replicate 24000 0 ++ (1 : Int) :: List.replicate 100 0,
            List.replicate 24101 (7 : Int)] : List (List Int)).map
              (fun ch => ch.drop 24015)),
          ([List.replicate 24000 0 ++ (1 : Int) :: List.replicate 100 0,
            List.replicate 24101 (7 : Int)] : List (List Int)).map
              (fun ch => ch.drop 24015)) ∧
        ∀ ch ∈ ([List.replicate 24000 0 ++ (1 : Int) :: List.replicate 100 0,
            List.replicate 24101 (7 : Int)] : List (List Int)).map
              (fun ch => ch.drop 24015), ch.length = 24101 - 24015) := by
  have hfs : findStart (([List.replicate 24000 0 ++ (1 : Int) :: List.replicate 100 0,
      List.replicate 24101 (7 : Int)] : List (List Int)).getD 0 []) =
      Except.ok 24015 := by
    have hch : ([List.replicate 24000 0 ++ (1 : Int) :: List.replicate 100 0,
        List.replicate 24101 (7 : Int)] : List (List Int)).getD 0 [] =
        List.replicate 24000 0 ++ (1 : Int) :: List.replicate 100 0 := rfl
    rw [hch]
    exact findStart_spike 24000 100 1 (by omega) (by omega) (by omega)
  have hlen : ∀ ch ∈ ([List.replicate 24000 0 ++ (1 : Int) :: List.replicate 100 0,
      List.replicate 24101 (7 : Int)] : List (List Int)), ch.length = 24101 := by
    intro ch hch
    rcases List.mem_cons.1 hch with h | h
    · rw [h, List.length_append, List.length_replicate, List.length_cons,
          List.length_replicate]
    · rcases List.mem_cons.1 h with h' | h'
      · rw [h', List.length_replicate]
      · exact absurd h' (List.not_mem_nil ch)
  exact ⟨hlen, by omega, by omega, hfs, by omega,
    align_drops_start_samples _ 1 24101 24015 hlen (by omega)
      (by simp only [List.length_cons, List.length_nil]; omega) hfs (by omega)⟩
